import Mathlib

/-!
Verification of the frame repository's balance scanning
(`src/main/externalData/balances/scan.ts`, `reducers.ts`) and gas fee
estimation (`src/main/transaction/gasCalculator.ts`).

The TypeScript is shallowly embedded: every JavaScript number that holds an
integer quantity is a `Nat`, gas-used ratios are `ℚ`, promise rejection is
`Except`, and each `await` of a fallible call reads the outcome from an
explicit environment.  JavaScript-specific behaviours that the code relies
on are embedded explicitly:

* `intToHex` / `toHexString` produce `"0x"` plus minimal lowercase hex
  digits;
* `parseInt` parses a maximal digit prefix and yields `NaN` (here `none`)
  when no digit is consumed; with no radix argument it auto-detects an
  `0x` prefix;
* `Array.prototype.sort()` with no comparator compares elements as
  strings (code-unit order) and moves `undefined` elements to the end;
* `x || y` falls back on every falsy `x`: `0`, `NaN`, `undefined`;
* `Object.entries` on an object whose keys are array indices (integers
  below 2^32 - 1, which covers every real chain id) enumerates them in
  ascending numeric order, not insertion order.
-/

namespace Frame

/-! ### JavaScript numeric and string primitives -/

/-- Lowercase hexadecimal digit character, as produced by
`Number.prototype.toString(16)` and ethers' `toHexString`. -/
def hexDigitChar (n : Nat) : Char :=
  if n < 10 then Char.ofNat (48 + n) else Char.ofNat (87 + n)

/-- Base-16 digits of `n`, least significant first.  The first argument is
fuel; `n` itself is always enough fuel, see `hexDigitsLE`. -/
def hexDigitsAux : Nat → Nat → List Nat
  | 0, _ => []
  | fuel + 1, n => if n = 0 then [] else n % 16 :: hexDigitsAux fuel (n / 16)

/-- Base-16 digits of `n`, least significant first (empty for `0`). -/
def hexDigitsLE (n : Nat) : List Nat :=
  hexDigitsAux n n

/-- `intToHex` from `ethereumjs-util` (also ethers' `toHexString`):
`"0x"` followed by the minimal lowercase hex representation. -/
def intToHex (n : Nat) : String :=
  String.mk ('0' :: 'x' :: (if n = 0 then ['0'] else ((hexDigitsLE n).reverse.map hexDigitChar)))

/-- Numeric value of a hex digit character, `none` for anything else. -/
def hexVal (c : Char) : Option Nat :=
  if '0' ≤ c ∧ c ≤ '9' then some (c.toNat - 48)
  else if 'a' ≤ c ∧ c ≤ 'f' then some (c.toNat - 87)
  else if 'A' ≤ c ∧ c ≤ 'F' then some (c.toNat - 55)
  else none

/-- Numeric value of a decimal digit character, `none` for anything else. -/
def decVal (c : Char) : Option Nat :=
  if '0' ≤ c ∧ c ≤ '9' then some (c.toNat - 48) else none

/-- Value of a big-endian digit list in the given base. -/
def digitsVal (base : Nat) (ds : List Nat) : Nat :=
  ds.foldl (fun acc d => base * acc + d) 0

/-- JavaScript digit-prefix parsing: consume the maximal prefix of digits
(per `dig`); `NaN` (`none`) exactly when no digit is consumed. -/
def parseDigitsPrefix (base : Nat) (dig : Char → Option Nat) (cs : List Char) : Option Nat :=
  let ds := cs.takeWhile (fun c => (dig c).isSome)
  if ds = [] then none
  else some (digitsVal base (ds.map (fun c => (dig c).getD 0)))

/-- `parseInt(s, 16)`: an optional `0x`/`0X` prefix, then a maximal run of
hex digits.  (Leading whitespace and sign handling are elided: every string
this program feeds to `parseInt(_, 16)` is an RPC quantity; a sign would
make the surrounding computation throw or fall into the same default branch
modelled for `NaN`, see the comments at the use sites.) -/
def jsParseIntHex (s : String) : Option Nat :=
  match s.data with
  | '0' :: 'x' :: rest => parseDigitsPrefix 16 hexVal rest
  | '0' :: 'X' :: rest => parseDigitsPrefix 16 hexVal rest
  | cs => parseDigitsPrefix 16 hexVal cs

/-- `parseInt(s)` with no radix: radix 16 after an `0x`/`0X` prefix,
otherwise radix 10. -/
def jsParseIntAuto (s : String) : Option Nat :=
  match s.data with
  | '0' :: 'x' :: rest => parseDigitsPrefix 16 hexVal rest
  | '0' :: 'X' :: rest => parseDigitsPrefix 16 hexVal rest
  | cs => parseDigitsPrefix 10 decVal cs

/-- Code-unit lexicographic strict order on character lists, the order
`Array.prototype.sort()` uses after converting elements to strings. -/
def strLtB : List Char → List Char → Bool
  | [], [] => false
  | [], _ :: _ => true
  | _ :: _, [] => false
  | a :: as, b :: bs => if a < b then true else if b < a then false else strLtB as bs

/-- Insert `x` into `l` keeping elements `le`-before `x` in front. -/
def insertLe (le : α → α → Bool) (x : α) : List α → List α
  | [] => [x]
  | y :: ys => if le y x then y :: insertLe le x ys else x :: y :: ys

/-- Insertion sort with a boolean `le`; the model of `Array.prototype.sort`
(for the total preorders used here the result is the unique stable sorted
arrangement, which is what every conforming JS engine returns). -/
def isort (le : α → α → Bool) : List α → List α
  | [] => []
  | y :: ys => insertLe le y (isort le ys)

/-! ### `src/main/transaction/gasCalculator.ts` -/

/-- `const oneGwei = 1e9` (gasCalculator.ts line 6). -/
def oneGwei : Nat := 1000000000

/-- The raw `eth_feeHistory` response shape (`FeeHistoryResponse`).
Base fees and rewards arrive as strings; gas-used ratios as JSON numbers,
embedded as rationals. -/
structure FeeHistoryResponse where
  baseFeePerGas : List String
  gasUsedRatio : List ℚ
  reward : List (List String)
deriving DecidableEq

/-- One shaped history block (`Block`).  `baseFee := none` models `NaN`
from an unparseable string; `gasUsedRatio := none` models `undefined` when
the ratio array is shorter than the base-fee array; a `none` inside
`rewards` models `NaN` for an unparseable reward string. -/
structure HistBlock where
  baseFee : Option Nat
  gasUsedRatio : Option ℚ
  rewards : List (Option Nat)
deriving DecidableEq

/-- `_getFeeHistory`'s shaping step (gasCalculator.ts lines 86-92):
one block per `baseFeePerGas` entry, with
`rewards := (feeHistory.reward[i] || []).map(r => parseInt(r, 16))`. -/
def shapeFeeHistory (resp : FeeHistoryResponse) : List HistBlock :=
  resp.baseFeePerGas.enum.map fun p =>
    { baseFee := jsParseIntHex p.2
      gasUsedRatio := resp.gasUsedRatio.get? p.1
      rewards := ((resp.reward.get? p.1).getD []).map jsParseIntHex }

/-- A value of `block.rewards[0]`: a number, `NaN`, or `undefined`
(when the block's reward array is empty). -/
inductive RewardSample where
  | val (n : Nat)
  | nan
  | undef
deriving DecidableEq

/-- `rewards[0]` as a `RewardSample`. -/
def rewardSampleOf : Option (Option Nat) → RewardSample
  | none => .undef
  | some none => .nan
  | some (some n) => .val n

/-- The order `sort()` (no comparator) puts reward samples in: elements are
compared as strings — numbers by their decimal representation in code-unit
order, `NaN` stringifies to `"NaN"` which is greater than every decimal
numeral (`'N' > '9'`) — and `undefined` elements always go last. -/
def sampleLe : RewardSample → RewardSample → Bool
  | .val a, .val b => !(strLtB (Nat.repr b).data (Nat.repr a).data)
  | .val _, _ => true
  | .nan, .val _ => false
  | .nan, _ => true
  | .undef, .undef => true
  | .undef, _ => false

/-- Eligibility filter and reward projection (gasCalculator.ts line 107):
`blocks.filter(b => b.gasUsedRatio >= 0.1 && b.gasUsedRatio <= 0.9)
       .map(b => b.rewards[0])`.
A comparison against `undefined` (or `NaN`) is false, so blocks with a
missing ratio are ineligible; for a present ratio `r >= 0.1` is `!(r < 0.1)`
written with the executable comparator `Rat.blt` (see `blt_le_iff`). -/
def eligibleRewardsBlocks (blocks : List HistBlock) : List RewardSample :=
  (blocks.filter fun b =>
    match b.gasUsedRatio with
    | some r => (!(Rat.blt r (mkRat 1 10))) && (!(Rat.blt (mkRat 9 10) r))
    | none => false).map fun b => rewardSampleOf b.rewards.head?

/-- `eligibleRewardsBlocks.sort()[Math.floor(len / 2)] || oneGwei`
(gasCalculator.ts line 108).  The `||` falls back to 1 gwei on every falsy
selection: out-of-range index (`undefined`), an `undefined` or `NaN`
element, or the number `0`. -/
def medianRewardOf (samples : List RewardSample) : Nat :=
  match (isort sampleLe samples).get? (samples.length / 2) with
  | some (.val n) => if n = 0 then oneGwei else n
  | _ => oneGwei

/-- `Math.ceil(nextBlockFee * 1.125 * 1.125)` (gasCalculator.ts line 104).
`1.125 = 9/8` is an exact binary double and both products are exact for
every realistic fee (`nextBlockFee < 2^45`), so the double computation
equals the exact `⌈n · 81 / 64⌉`, written with natural division. -/
def calculatedFeeOf (nextBlockFee : Nat) : Nat :=
  (81 * nextBlockFee + 63) / 64

structure Eip1559GasFees where
  maxBaseFeePerGas : String
  maxPriorityFeePerGas : String
  maxFeePerGas : String
deriving DecidableEq

/-- How a promise in `getFeePerGas` can reject. -/
inductive JsError where
  | transport
  | typeError
deriving DecidableEq

/-- The `try` block of `getFeePerGas` (gasCalculator.ts lines 100-114).
`resp` is the awaited outcome of the `eth_feeHistory` transport call.
Failure points inside the block:
* an empty history makes `blocks[blocks.length - 1].baseFee` read a
  property of `undefined` (TypeError);
* an unparseable last base fee makes `calculatedFee` `NaN`, so
  `intToHex(calculatedFee)` throws.
`medianReward` cannot throw: every falsy selection is replaced by
`oneGwei`. -/
def getFeePerGasTry (resp : Except JsError FeeHistoryResponse) :
    Except JsError Eip1559GasFees :=
  match resp with
  | .error e => .error e
  | .ok r =>
    let blocks := shapeFeeHistory r
    match blocks.getLast? with
    | none => .error .typeError
    | some lastBlock =>
      match lastBlock.baseFee with
      | none => .error .typeError
      | some nextBlockFee =>
        let calculatedFee := calculatedFeeOf nextBlockFee
        let medianReward := medianRewardOf (eligibleRewardsBlocks blocks)
        .ok { maxBaseFeePerGas := intToHex calculatedFee
              maxPriorityFeePerGas := intToHex medianReward
              maxFeePerGas := intToHex (calculatedFee + medianReward) }

/-- `getFeePerGas` (gasCalculator.ts lines 97-125): the `try` block above,
with the `catch` building the fallback
`{maxBaseFeePerGas: defaultGasLevel, maxPriorityFeePerGas: intToHex(oneGwei),
maxFeePerGas: intToHex(parseInt(defaultGasLevel) + oneGwei)}`.
If `defaultGasLevel` itself is unparseable, `intToHex(NaN)` throws inside
the `catch`, which the promise surfaces as a rejection. -/
def getFeePerGas (resp : Except JsError FeeHistoryResponse)
    (defaultGasLevel : String) : Except JsError Eip1559GasFees :=
  match getFeePerGasTry resp with
  | .ok fees => .ok fees
  | .error _ =>
    match jsParseIntAuto defaultGasLevel with
    | some d => .ok { maxBaseFeePerGas := defaultGasLevel
                      maxPriorityFeePerGas := intToHex oneGwei
                      maxFeePerGas := intToHex (d + oneGwei) }
    | none => .error .typeError

/-- `GasEstimateResponse` (gasCalculator.ts lines 9-12): `error?: string`
embedded as `Option String`. -/
structure GasEstimateResponse where
  error : Option String
  result : String
deriving DecidableEq

/-- A raw transaction; only the fields `getGasEstimate` reads. -/
structure RawTransaction where
  chainId : String
deriving DecidableEq

/-- The response callback of `getGasEstimate` (gasCalculator.ts lines
71-77): `if (response.error) reject(response.error) else
resolve(response.result)`.  `if (response.error)` tests truthiness, so an
absent error — or the degenerate empty string, which is falsy — resolves. -/
def handleGasEstimateResponse (response : GasEstimateResponse) :
    Except String String :=
  match response.error with
  | some e => if e = "" then .ok response.result else .error e
  | none => .ok response.result

/-- `getGasEstimate` (gasCalculator.ts lines 61-79): sends
`eth_estimateGas` for the transaction and settles from the transport's
response; `send` is the transport's response function. -/
def getGasEstimate (send : RawTransaction → GasEstimateResponse)
    (rawTx : RawTransaction) : Except String String :=
  handleGasEstimateResponse (send rawTx)

/-! ### `src/main/externalData/balances/scan.ts` and `reducers.ts` -/

/-- `TokenDefinition` (scan.ts lines 21-23): the fields this code reads.
Remaining registry metadata (symbol, name, logo) is opaque to the scanned
logic and is carried along untouched by the spreads, so it is elided. -/
structure TokenDefinition where
  chainId : Nat
  address : String
  decimals : Nat
deriving DecidableEq

/-- `ExternalBalance` (scan.ts lines 16-19). -/
structure ExternalBalance where
  balance : String
  displayBalance : String
deriving DecidableEq

/-- `TokenBalance` (scan.ts line 25): `{...token, ...balance}`.  Balance
field names do not collide with token fields, so the spread is exactly a
pairing of the untouched definition with the balance. -/
structure TokenBalance where
  token : TokenDefinition
  balance : String
  displayBalance : String
deriving DecidableEq

/-- The object built by `getNativeCurrencyBalance` (scan.ts lines 59-73).
The success path spreads `createBalance` (key `displayBalance`); the
failure path literally writes `{ balance: '0x0', displayValue: '0.0',
chainId }` — the key `displayValue`, not `displayBalance` — so both keys
are optional here and each path sets exactly one of them. -/
structure NativeBalanceResult where
  balance : String
  displayBalance : Option String
  displayValue : Option String
  chainId : Nat
deriving DecidableEq

/-- The outcome environment: one entry per awaited external call, plus the
two external collaborators scan.ts imports from outside `src/`.

* `display` is `bignumber.js`: `new BigNumber(raw).shiftedBy(-decimals)
  .toString()` (scan.ts line 39), kept abstract — no claim depends on its
  digits.
* `supportsChain` is `multicallSupportsChain`, the BatchCapabilityOracle.
* `nativeBalance chainId` is the `eth_getBalance` outcome.
* `tokenCall token` is the combined outcome of the direct `eth_call` plus
  ABI decode for one token: `ok` with the decoded balance, or `error` for
  any transport/decode failure (all raised inside the same `try`).
* `batchResult chainId i` is call `i`'s outcome in the multicall batch.
  Modelled from the spec: the `multicall` module (CallBatcher) is not under
  `src/`; per the spec it "executes a list of encoded read calls ...
  returning per-call success/failure and decoded value" as "a same-length
  ordered list of {success: boolean, decoded values | absent}", so it is
  embedded as a total per-index outcome function and never as a wholesale
  rejection. -/
structure Env where
  display : String → Nat → String
  supportsChain : Nat → Bool
  nativeBalance : Nat → Except String String
  tokenCall : TokenDefinition → Except String Nat
  batchResult : Nat → Nat → Option Nat

/-- `createBalance` (scan.ts lines 36-41). -/
def createBalance (env : Env) (rawBalance : String) (decimals : Nat) :
    ExternalBalance :=
  { balance := rawBalance, displayBalance := env.display rawBalance decimals }

/-- `getNativeCurrencyBalance` (scan.ts lines 59-73): the `try` returns
`{...createBalance(rawBalance, 18), chainId}`; the `catch` returns
`{ balance: '0x0', displayValue: '0.0', chainId }`. -/
def getNativeCurrencyBalance (env : Env) (chainId : Nat) :
    NativeBalanceResult :=
  match env.nativeBalance chainId with
  | .ok rawBalance =>
    let b := createBalance env rawBalance 18
    { balance := b.balance, displayBalance := some b.displayBalance
      displayValue := none, chainId }
  | .error _ =>
    { balance := "0x0", displayBalance := none
      displayValue := some "0.0", chainId }

/-- `getCurrencyBalances` (scan.ts lines 130-134): `Promise.all` over
`getNativeCurrencyBalance` per chain; each member promise has its own
`catch`, so the combined promise always resolves, in input order. -/
def getCurrencyBalances (env : Env) (chains : List Nat) :
    List NativeBalanceResult :=
  chains.map (getNativeCurrencyBalance env)

/-- `getTokenBalance` (scan.ts lines 75-94): the `try` returns
`result.balance.toHexString()`; any transport or decode failure is caught
and replaced by `'0x0'`. -/
def getTokenBalance (env : Env) (token : TokenDefinition) : String :=
  match env.tokenCall token with
  | .ok balance => intToHex balance
  | .error _ => "0x0"

/-- `getTokenBalancesFromContracts` (scan.ts lines 96-107). -/
def getTokenBalancesFromContracts (env : Env)
    (tokens : List TokenDefinition) : List TokenBalance :=
  tokens.map fun token =>
    let b := createBalance env (getTokenBalance env token) token.decimals
    { token := token, balance := b.balance, displayBalance := b.displayBalance }

/-- `getTokenBalancesFromMulticall` (scan.ts lines 109-127): the batch
result list is zipped back positionally; a successful call keeps the
decoded balance (the `returns` transform of `balanceCalls`, scan.ts lines
48-56, which is `createBalance(bn.toHexString(), token.decimals)` for the
positionally matching token), a failed call substitutes
`createBalance('0x0', tokens[i].decimals)`. -/
def getTokenBalancesFromMulticall (env : Env)
    (tokens : List TokenDefinition) (chainId : Nat) : List TokenBalance :=
  tokens.enum.map fun p =>
    let b := match env.batchResult chainId p.1 with
      | some v => createBalance env (intToHex v) p.2.decimals
      | none => createBalance env "0x0" p.2.decimals
    { token := p.2, balance := b.balance, displayBalance := b.displayBalance }

/-- `TokensByChain` (reducers.ts lines 3-5), embedded as the underlying
JS object: an insertion-ordered association list with unique keys. -/
abbrev TokensByChain := List (Nat × List TokenDefinition)

/-- Property write `{...grouped, [chainId]: v}`: an existing key keeps its
position and gets the new value, a new key is appended. -/
def setChain : TokensByChain → Nat → List TokenDefinition → TokensByChain
  | [], k, v => [(k, v)]
  | (k', v') :: rest, k, v =>
    if k' = k then (k, v) :: rest else (k', v') :: setChain rest k v

/-- `groupByChain` (reducers.ts lines 7-12):
`{...grouped, [token.chainId]: [...(grouped[token.chainId] || []), token]}`. -/
def groupByChain (grouped : TokensByChain) (token : TokenDefinition) :
    TokensByChain :=
  setChain grouped token.chainId
    (((grouped.lookup token.chainId).getD []) ++ [token])

/-- `tokens.reduce(groupByChain, {})` (scan.ts line 136). -/
def tokensByChain (tokens : List TokenDefinition) : TokensByChain :=
  tokens.foldl groupByChain []

/-- `Object.entries` (scan.ts line 139).  Every key of this object is a
chain id, a non-negative integer; JS enumerates integer keys below
2^32 - 1 (which covers all real chain ids — the embedding assumes it) in
ascending numeric order, regardless of insertion order. -/
def objectEntries (m : TokensByChain) : TokensByChain :=
  isort (fun a b => decide (a.1 ≤ b.1)) m

/-- `getTokenBalances` (scan.ts lines 135-149): group, dispatch each chain
group on `multicallSupportsChain`, await all, concatenate.  The result is
`Except`-typed because `Promise.all` would propagate a member rejection;
no member can reject (each branch above is total), which is the content of
the C3 theorem. -/
def getTokenBalances (env : Env) (tokens : List TokenDefinition) :
    Except String (List TokenBalance) :=
  let grouped := tokensByChain tokens
  .ok (((objectEntries grouped).map fun e =>
    if env.supportsChain e.1
    then getTokenBalancesFromMulticall env e.2 e.1
    else getTokenBalancesFromContracts env e.2).flatten)

/-! ### Concrete inputs used by counterexamples and witnesses -/

/-- Little-endian digit value, used to relate `digitsVal` to `hexDigitsLE`. -/
def digitsValLE (base : Nat) (ds : List Nat) : Nat :=
  ds.foldr (fun d acc => d + base * acc) 0

/-- An environment in which every external call fails and no chain supports
multicall. -/
def envAllFail : Env :=
  { display := fun _ _ => ""
    supportsChain := fun _ => false
    nativeBalance := fun _ => .error "fail"
    tokenCall := fun _ => .error "fail"
    batchResult := fun _ _ => none }

/-- An environment whose batch calls succeed exactly at index 0 (decoding
to 7) and fail elsewhere, with every chain supporting multicall. -/
def envBatchMixed : Env :=
  { display := fun _ _ => ""
    supportsChain := fun _ => true
    nativeBalance := fun _ => .error "fail"
    tokenCall := fun _ => .error "fail"
    batchResult := fun _ i => if i = 0 then some 7 else none }

/-- A token on chain 2, listed before `tokB1` in the C1 counterexample. -/
def tokA2 : TokenDefinition := { chainId := 2, address := "0xa", decimals := 6 }

/-- A token on chain 1, listed after `tokA2` in the C1 counterexample. -/
def tokB1 : TokenDefinition := { chainId := 1, address := "0xb", decimals := 18 }

/-- The spec's §8 fee-history example: base fees
`[100,...,100,110]`, three eligible blocks (ratio 1/2) whose rewards are
2, 3, 4, and seven ineligible blocks (ratios 0.95 and 0.05). -/
def respSpecExample : FeeHistoryResponse :=
  { baseFeePerGas := ["0x64","0x64","0x64","0x64","0x64","0x64","0x64","0x64","0x64","0x6e"]
    gasUsedRatio := [mkRat 1 2, mkRat 1 2, mkRat 1 2, mkRat 95 100, mkRat 95 100,
      mkRat 95 100, mkRat 95 100, mkRat 5 100, mkRat 5 100, mkRat 5 100]
    reward := [["0x2"],["0x3"],["0x4"],["0x63"],["0x63"],["0x63"],["0x63"],["0x1"],["0x1"],["0x1"]] }

/-- A fee history whose eligible rewards are 2, 10, 9 — numerically the
lower median is 9, but compared as strings `"10" < "2" < "9"`. -/
def respStringSort : FeeHistoryResponse :=
  { baseFeePerGas := ["0x64","0x64","0x64"]
    gasUsedRatio := [mkRat 1 2, mkRat 1 2, mkRat 1 2]
    reward := [["0x2"],["0xa"],["0x9"]] }

/-- A fee history whose three eligible rewards are 0, 0, 5: the sorted
sample list has 0 at the lower-median index 1. -/
def respZeroMedian : FeeHistoryResponse :=
  { baseFeePerGas := ["0x64","0x64","0x64"]
    gasUsedRatio := [mkRat 1 2, mkRat 1 2, mkRat 1 2]
    reward := [["0x0"],["0x0"],["0x5"]] }

/-- A transport that reports an estimation error for every transaction. -/
def sendEstimateError : RawTransaction → GasEstimateResponse :=
  fun _ => { error := some "execution reverted", result := "" }

/-- A transport that reports a gas estimate for every transaction. -/
def sendEstimateOk : RawTransaction → GasEstimateResponse :=
  fun _ => { error := none, result := "0x5208" }

/-! ### Lemmas about the JavaScript primitives -/

theorem hexDigitsAux_congr : ∀ (f1 f2 n : Nat), n ≤ f1 → n ≤ f2 →
    hexDigitsAux f1 n = hexDigitsAux f2 n := by
  intro f1
  induction f1 with
  | zero =>
    intro f2 n h1 h2
    have : n = 0 := Nat.le_zero.mp h1
    subst this
    cases f2 <;> simp [hexDigitsAux]
  | succ f ih =>
    intro f2 n h1 h2
    cases f2 with
    | zero =>
      have : n = 0 := Nat.le_zero.mp h2
      subst this
      simp [hexDigitsAux]
    | succ f2' =>
      simp only [hexDigitsAux]
      by_cases hn : n = 0
      · simp [hn]
      · rw [if_neg hn, if_neg hn]
        congr 1
        exact ih f2' (n / 16) (by omega) (by omega)

theorem hexDigitsLE_eq_nil : hexDigitsLE 0 = [] := by decide

theorem hexDigitsLE_eq_cons (n : Nat) (h : n ≠ 0) :
    hexDigitsLE n = n % 16 :: hexDigitsLE (n / 16) := by
  cases n with
  | zero => exact absurd rfl h
  | succ m =>
    show hexDigitsAux (m + 1) (m + 1) = _
    rw [hexDigitsAux, if_neg h]
    congr 1
    exact hexDigitsAux_congr m ((m + 1) / 16) ((m + 1) / 16) (by omega) (by omega)

theorem digitsVal_reverse (base : Nat) (ds : List Nat) :
    digitsVal base ds.reverse = digitsValLE base ds := by
  induction ds with
  | nil => rfl
  | cons d ds ih =>
    simp only [List.reverse_cons, digitsVal, List.foldl_append, List.foldl_cons,
      List.foldl_nil, digitsValLE, List.foldr_cons]
    rw [digitsVal] at ih
    rw [ih]
    rw [digitsValLE]
    ring

theorem digitsValLE_hexDigitsLE (n : Nat) : digitsValLE 16 (hexDigitsLE n) = n := by
  induction n using Nat.strong_induction_on with
  | _ n ih =>
    by_cases h : n = 0
    · subst h; decide
    · rw [hexDigitsLE_eq_cons n h, digitsValLE, List.foldr_cons]
      have := ih (n / 16) (Nat.div_lt_self (Nat.pos_of_ne_zero h) (by norm_num))
      rw [digitsValLE] at this
      rw [this]
      omega

theorem hexDigitsLE_lt (n : Nat) : ∀ d ∈ hexDigitsLE n, d < 16 := by
  induction n using Nat.strong_induction_on with
  | _ n ih =>
    by_cases h : n = 0
    · subst h; simp [hexDigitsLE_eq_nil]
    · rw [hexDigitsLE_eq_cons n h]
      intro d hd
      rcases List.mem_cons.mp hd with h1 | h1
      · subst h1; exact Nat.mod_lt _ (by norm_num)
      · exact ih (n / 16) (Nat.div_lt_self (Nat.pos_of_ne_zero h) (by norm_num)) d h1

theorem hexDigitsLE_ne_nil (n : Nat) (h : n ≠ 0) : hexDigitsLE n ≠ [] := by
  rw [hexDigitsLE_eq_cons n h]; simp

theorem hexVal_hexDigitChar : ∀ d, d < 16 → hexVal (hexDigitChar d) = some d := by decide

theorem parseDigitsPrefix_map_hexDigitChar (ds : List Nat) (hne : ds ≠ [])
    (hlt : ∀ d ∈ ds, d < 16) :
    parseDigitsPrefix 16 hexVal (ds.map hexDigitChar) = some (digitsVal 16 ds) := by
  have hsome : ∀ c ∈ ds.map hexDigitChar, (hexVal c).isSome := by
    intro c hc
    rcases List.mem_map.mp hc with ⟨d, hd, rfl⟩
    rw [hexVal_hexDigitChar d (hlt d hd)]
    rfl
  rw [parseDigitsPrefix]
  simp only [List.takeWhile_eq_self_iff.mpr hsome]
  rw [if_neg (by simpa using hne)]
  congr 1
  rw [List.map_map]
  congr 1
  have : ds.map (fun d => (hexVal (hexDigitChar d)).getD 0) = ds.map (fun d => d) := by
    apply List.map_congr_left
    intro d hd
    rw [hexVal_hexDigitChar d (hlt d hd)]
    rfl
  simpa using this

theorem jsParseIntAuto_intToHex (n : Nat) : jsParseIntAuto (intToHex n) = some n := by
  by_cases h : n = 0
  · subst h; decide
  · rw [intToHex, if_neg h]
    show parseDigitsPrefix 16 hexVal ((hexDigitsLE n).reverse.map hexDigitChar) = some n
    rw [parseDigitsPrefix_map_hexDigitChar _ (by simpa using hexDigitsLE_ne_nil n h)
      (by intro d hd; exact hexDigitsLE_lt n d (List.mem_reverse.mp hd)),
      digitsVal_reverse, digitsValLE_hexDigitsLE]

theorem jsParseIntHex_intToHex (n : Nat) : jsParseIntHex (intToHex n) = some n := by
  by_cases h : n = 0
  · subst h; decide
  · rw [intToHex, if_neg h]
    show parseDigitsPrefix 16 hexVal ((hexDigitsLE n).reverse.map hexDigitChar) = some n
    rw [parseDigitsPrefix_map_hexDigitChar _ (by simpa using hexDigitsLE_ne_nil n h)
      (by intro d hd; exact hexDigitsLE_lt n d (List.mem_reverse.mp hd)),
      digitsVal_reverse, digitsValLE_hexDigitsLE]

/-! ### Lemmas about the `sort()` model -/

theorem insertLe_perm (le : α → α → Bool) (x : α) (l : List α) :
    List.Perm (insertLe le x l) (x :: l) := by
  induction l with
  | nil => exact List.Perm.refl _
  | cons y ys ih =>
    rw [insertLe]
    by_cases h : le y x
    · rw [if_pos h]
      exact (List.Perm.cons y ih).trans (List.Perm.swap x y ys)
    · rw [if_neg h]

theorem isort_perm (le : α → α → Bool) (l : List α) :
    List.Perm (isort le l) l := by
  induction l with
  | nil => exact List.Perm.refl _
  | cons y ys ih =>
    exact (insertLe_perm le y (isort le ys)).trans (List.Perm.cons y ih)

theorem insertLe_pairwise (le : α → α → Bool)
    (htrans : ∀ a b c, le a b = true → le b c = true → le a c = true)
    (htot : ∀ a b, le a b = true ∨ le b a = true)
    (x : α) (l : List α) (h : l.Pairwise (le · · = true)) :
    (insertLe le x l).Pairwise (le · · = true) := by
  induction l with
  | nil => simp [insertLe]
  | cons y ys ih =>
    rw [List.pairwise_cons] at h
    obtain ⟨hy, hys⟩ := h
    rw [insertLe]
    by_cases hyx : le y x
    · rw [if_pos hyx]
      rw [List.pairwise_cons]
      refine ⟨?_, ih hys⟩
      intro z hz
      rcases List.mem_cons.mp ((insertLe_perm le x ys).mem_iff.mp hz) with h1 | h1
      · subst h1; exact hyx
      · exact hy z h1
    · rw [if_neg hyx]
      have hxy : le x y = true := by
        rcases htot x y with h1 | h1
        · exact h1
        · exact absurd h1 hyx
      rw [List.pairwise_cons]
      constructor
      · intro z hz
        rcases List.mem_cons.mp hz with h1 | h1
        · subst h1; exact hxy
        · exact htrans x y z hxy (hy z h1)
      · exact List.pairwise_cons.mpr ⟨hy, hys⟩

theorem isort_pairwise (le : α → α → Bool)
    (htrans : ∀ a b c, le a b = true → le b c = true → le a c = true)
    (htot : ∀ a b, le a b = true ∨ le b a = true)
    (l : List α) : (isort le l).Pairwise (le · · = true) := by
  induction l with
  | nil => simp [isort]
  | cons y ys ih => exact insertLe_pairwise le htrans htot y (isort le ys) ih

/-! ### Lemmas about `groupByChain` and `Object.entries` -/

theorem setChain_lookup_self (m : TokensByChain) (k : Nat) (v : List TokenDefinition) :
    (setChain m k v).lookup k = some v := by
  induction m with
  | nil => simp [setChain, List.lookup]
  | cons e rest ih =>
    obtain ⟨k', v'⟩ := e
    rw [setChain]
    by_cases h : k' = k
    · rw [if_pos h]; simp [List.lookup]
    · rw [if_neg h]
      have : (k == k') = false := by simp [Ne.symm h]
      simp [List.lookup, this, ih]

theorem setChain_lookup_other (m : TokensByChain) (k k' : Nat)
    (v : List TokenDefinition) (h : k' ≠ k) :
    (setChain m k v).lookup k' = m.lookup k' := by
  induction m with
  | nil =>
    have : (k' == k) = false := by simp [h]
    simp [setChain, List.lookup, this]
  | cons e rest ih =>
    obtain ⟨k'', v''⟩ := e
    rw [setChain]
    by_cases h2 : k'' = k
    · subst h2
      have : (k' == k'') = false := by simp [h]
      simp [List.lookup, this]
    · rw [if_neg h2]
      by_cases h3 : k' = k''
      · subst h3; simp [List.lookup]
      · have : (k' == k'') = false := by simp [h3]
        simp [List.lookup, this, ih]

theorem setChain_keys_mem (m : TokensByChain) (k : Nat) (v : List TokenDefinition)
    (h : k ∈ m.map Prod.fst) :
    (setChain m k v).map Prod.fst = m.map Prod.fst := by
  induction m with
  | nil => simp at h
  | cons e rest ih =>
    obtain ⟨k', v'⟩ := e
    rw [setChain]
    by_cases h2 : k' = k
    · rw [if_pos h2]; simp [h2]
    · rw [if_neg h2]
      simp only [List.map_cons] at h ⊢
      rcases List.mem_cons.mp h with h3 | h3
      · exact absurd h3.symm h2
      · rw [ih h3]

theorem setChain_keys_not_mem (m : TokensByChain) (k : Nat) (v : List TokenDefinition)
    (h : k ∉ m.map Prod.fst) :
    (setChain m k v).map Prod.fst = m.map Prod.fst ++ [k] := by
  induction m with
  | nil => simp [setChain]
  | cons e rest ih =>
    obtain ⟨k', v'⟩ := e
    simp only [List.map_cons, List.mem_cons] at h
    push_neg at h
    rw [setChain, if_neg (fun hh => h.1 hh.symm)]
    simp only [List.map_cons, List.cons_append]
    rw [ih h.2]

theorem setChain_keys_nodup (m : TokensByChain) (k : Nat) (v : List TokenDefinition)
    (h : (m.map Prod.fst).Nodup) : ((setChain m k v).map Prod.fst).Nodup := by
  by_cases hm : k ∈ m.map Prod.fst
  · rw [setChain_keys_mem m k v hm]; exact h
  · rw [setChain_keys_not_mem m k v hm]
    rw [List.nodup_append]
    exact ⟨h, List.nodup_singleton k, by simpa [List.disjoint_singleton] using hm⟩

theorem lookup_isSome_iff_mem_keys (m : TokensByChain) (k : Nat) :
    (m.lookup k).isSome = true ↔ k ∈ m.map Prod.fst := by
  induction m with
  | nil => simp [List.lookup]
  | cons e rest ih =>
    obtain ⟨k', v'⟩ := e
    by_cases h : k = k'
    · subst h; simp [List.lookup]
    · have : (k == k') = false := by simp [h]
      simp [List.lookup, this, ih, h]

theorem mem_lookup_of_nodup (m : TokensByChain) (k : Nat) (g : List TokenDefinition)
    (hnd : (m.map Prod.fst).Nodup) (hmem : (k, g) ∈ m) : m.lookup k = some g := by
  induction m with
  | nil => simp at hmem
  | cons e rest ih =>
    obtain ⟨k', v'⟩ := e
    rcases List.mem_cons.mp hmem with h | h
    · obtain ⟨h1, h2⟩ := Prod.mk.injEq _ _ _ _ ▸ h
      subst h1; subst h2
      simp [List.lookup]
    · simp only [List.map_cons, List.nodup_cons] at hnd
      have hk : k ≠ k' := by
        intro hkk
        subst hkk
        exact hnd.1 (List.mem_map.mpr ⟨(k, g), h, rfl⟩)
      have : (k == k') = false := by simp [hk]
      simp [List.lookup, this]
      exact ih hnd.2 h

theorem foldl_groupByChain_lookup_some (tokens : List TokenDefinition) :
    ∀ (m : TokensByChain) (k : Nat) (v : List TokenDefinition),
    m.lookup k = some v →
    (tokens.foldl groupByChain m).lookup k =
      some (v ++ tokens.filter (fun t => t.chainId == k)) := by
  induction tokens with
  | nil => intro m k v h; simpa using h
  | cons t ts ih =>
    intro m k v h
    rw [List.foldl_cons]
    by_cases hk : t.chainId = k
    · have hv : (groupByChain m t).lookup k = some (v ++ [t]) := by
        rw [groupByChain, hk, h]
        simpa using setChain_lookup_self m k (v ++ [t])
      rw [ih (groupByChain m t) k (v ++ [t]) hv]
      have : (t.chainId == k) = true := by simp [hk]
      simp [List.filter_cons, this]
    · have hv : (groupByChain m t).lookup k = m.lookup k :=
        setChain_lookup_other m t.chainId k _ (Ne.symm hk)
      rw [ih (groupByChain m t) k v (hv.trans h)]
      have : (t.chainId == k) = false := by simp [hk]
      simp [List.filter_cons, this]

theorem foldl_groupByChain_lookup_none (tokens : List TokenDefinition) :
    ∀ (m : TokensByChain) (k : Nat),
    m.lookup k = none →
    (tokens.foldl groupByChain m).lookup k =
      (if tokens.filter (fun t => t.chainId == k) = []
       then none
       else some (tokens.filter (fun t => t.chainId == k))) := by
  induction tokens with
  | nil => intro m k h; simpa using h
  | cons t ts ih =>
    intro m k h
    rw [List.foldl_cons]
    by_cases hk : t.chainId = k
    · have hv : (groupByChain m t).lookup k = some [t] := by
        rw [groupByChain, hk, h]
        simpa using setChain_lookup_self m k _
      rw [foldl_groupByChain_lookup_some ts (groupByChain m t) k [t] hv]
      have : (t.chainId == k) = true := by simp [hk]
      simp [List.filter_cons, this]
    · have hv : (groupByChain m t).lookup k = m.lookup k :=
        setChain_lookup_other m t.chainId k _ (Ne.symm hk)
      rw [ih (groupByChain m t) k (hv.trans h)]
      have : (t.chainId == k) = false := by simp [hk]
      simp [List.filter_cons, this]

theorem foldl_groupByChain_keys_nodup (tokens : List TokenDefinition) :
    ∀ (m : TokensByChain), (m.map Prod.fst).Nodup →
    ((tokens.foldl groupByChain m).map Prod.fst).Nodup := by
  induction tokens with
  | nil => intro m h; simpa using h
  | cons t ts ih =>
    intro m h
    rw [List.foldl_cons]
    exact ih (groupByChain m t) (setChain_keys_nodup m t.chainId _ h)

theorem tokensByChain_keys_nodup (tokens : List TokenDefinition) :
    ((tokensByChain tokens).map Prod.fst).Nodup :=
  foldl_groupByChain_keys_nodup tokens [] (by simp)

theorem tokensByChain_lookup (tokens : List TokenDefinition) (k : Nat) :
    (tokensByChain tokens).lookup k =
      (if tokens.filter (fun t => t.chainId == k) = []
       then none
       else some (tokens.filter (fun t => t.chainId == k))) :=
  foldl_groupByChain_lookup_none tokens [] k (by simp [List.lookup])

theorem mem_tokensByChain_eq_filter (tokens : List TokenDefinition)
    (k : Nat) (g : List TokenDefinition) (h : (k, g) ∈ tokensByChain tokens) :
    g = tokens.filter (fun t => t.chainId == k) := by
  have := mem_lookup_of_nodup _ k g (tokensByChain_keys_nodup tokens) h
  rw [tokensByChain_lookup tokens k] at this
  by_cases hf : tokens.filter (fun t => t.chainId == k) = []
  · rw [if_pos hf] at this; exact absurd this (by simp)
  · rw [if_neg hf] at this
    exact (Option.some.injEq _ _ ▸ this).symm

theorem mem_keys_tokensByChain (tokens : List TokenDefinition) (k : Nat) :
    k ∈ (tokensByChain tokens).map Prod.fst ↔
      k ∈ tokens.map TokenDefinition.chainId := by
  rw [← lookup_isSome_iff_mem_keys, tokensByChain_lookup tokens k]
  by_cases hf : tokens.filter (fun t => t.chainId == k) = []
  · rw [if_pos hf]
    simp only [Option.isSome_none, Bool.false_eq_true, false_iff]
    intro hmem
    rcases List.mem_map.mp hmem with ⟨t, ht, hk⟩
    have hmem2 : t ∈ tokens.filter (fun t => t.chainId == k) :=
      List.mem_filter.mpr ⟨ht, by simp [hk]⟩
    rw [hf] at hmem2
    simp at hmem2
  · rw [if_neg hf]
    simp only [Option.isSome_some, true_iff]
    rcases List.exists_mem_of_ne_nil _ hf with ⟨t, ht⟩
    rcases List.mem_filter.mp ht with ⟨ht1, ht2⟩
    exact List.mem_map.mpr ⟨t, ht1, by simpa using ht2⟩

theorem objectEntries_perm (m : TokensByChain) :
    List.Perm (objectEntries m) m :=
  isort_perm _ m

theorem objectEntries_sorted (m : TokensByChain) :
    (objectEntries m).Pairwise (fun a b => a.1 ≤ b.1) := by
  have h := isort_pairwise (fun a b : Nat × List TokenDefinition => decide (a.1 ≤ b.1))
    (by intro a b c h1 h2; simp only [decide_eq_true_eq] at *; omega)
    (by intro a b; simp only [decide_eq_true_eq]; omega) m
  exact List.Pairwise.imp (by intro a b h; simpa using h) h

/-- The chain ids of the sorted entry list, in enumeration order. -/
def chainsOf (tokens : List TokenDefinition) : List Nat :=
  (objectEntries (tokensByChain tokens)).map Prod.fst

theorem chainsOf_sorted (tokens : List TokenDefinition) :
    List.Sorted (· < ·) (chainsOf tokens) := by
  have hle : (chainsOf tokens).Pairwise (· ≤ ·) := by
    rw [chainsOf, List.pairwise_map]
    exact objectEntries_sorted (tokensByChain tokens)
  have hnd : (chainsOf tokens).Nodup := by
    rw [chainsOf]
    exact ((objectEntries_perm (tokensByChain tokens)).map Prod.fst).nodup_iff.mpr
      (tokensByChain_keys_nodup tokens)
  exact List.Pairwise.imp (by rintro a b ⟨h1, h2⟩; omega) (hle.and hnd)

theorem chainsOf_mem (tokens : List TokenDefinition) (k : Nat) :
    k ∈ chainsOf tokens ↔ k ∈ tokens.map TokenDefinition.chainId := by
  rw [chainsOf, ((objectEntries_perm (tokensByChain tokens)).map Prod.fst).mem_iff]
  exact mem_keys_tokensByChain tokens k

theorem getTokenBalancesFromContracts_tokens (env : Env)
    (tokens : List TokenDefinition) :
    (getTokenBalancesFromContracts env tokens).map TokenBalance.token = tokens := by
  rw [getTokenBalancesFromContracts, List.map_map]
  exact List.map_id' tokens

theorem getTokenBalancesFromMulticall_tokens (env : Env)
    (tokens : List TokenDefinition) (chainId : Nat) :
    (getTokenBalancesFromMulticall env tokens chainId).map TokenBalance.token = tokens := by
  rw [getTokenBalancesFromMulticall, List.map_map]
  have : ∀ p : Nat × TokenDefinition,
      (TokenBalance.token ∘ fun p : Nat × TokenDefinition =>
        let b := match env.batchResult chainId p.1 with
          | some v => createBalance env (intToHex v) p.2.decimals
          | none => createBalance env "0x0" p.2.decimals
        ({ token := p.2, balance := b.balance, displayBalance := b.displayBalance } :
          TokenBalance)) p = p.2 := by
    intro p; rfl
  rw [List.map_congr_left (fun p _ => this p)]
  exact List.enum_map_snd tokens

theorem perChainBranch_tokens (env : Env) (e : Nat × List TokenDefinition) :
    ((if env.supportsChain e.1
      then getTokenBalancesFromMulticall env e.2 e.1
      else getTokenBalancesFromContracts env e.2).map TokenBalance.token) = e.2 := by
  by_cases h : env.supportsChain e.1
  · rw [if_pos h]; exact getTokenBalancesFromMulticall_tokens env e.2 e.1
  · rw [if_neg h]; exact getTokenBalancesFromContracts_tokens env e.2

theorem getTokenBalances_tokens (env : Env) (tokens : List TokenDefinition) :
    ∃ out, getTokenBalances env tokens = Except.ok out ∧
      out.map TokenBalance.token =
        ((chainsOf tokens).map
          (fun k => tokens.filter (fun t => t.chainId == k))).flatten := by
  refine ⟨_, rfl, ?_⟩
  rw [List.map_flatten, List.map_map]
  have h1 : ∀ e ∈ objectEntries (tokensByChain tokens),
      (List.map TokenBalance.token ∘ fun e : Nat × List TokenDefinition =>
        if env.supportsChain e.1
        then getTokenBalancesFromMulticall env e.2 e.1
        else getTokenBalancesFromContracts env e.2) e =
      tokens.filter (fun t => t.chainId == e.1) := by
    intro e he
    have hmem : e ∈ tokensByChain tokens := (objectEntries_perm _).mem_iff.mp he
    have heq := mem_tokensByChain_eq_filter tokens e.1 e.2 (by simpa using hmem)
    exact (perChainBranch_tokens env e).trans heq
  rw [List.map_congr_left h1]
  rw [chainsOf, List.map_map]
  rfl

/-- Splitting a list into its fibers over a duplicate-free, covering list of
chain ids is a permutation of the list. -/
theorem flatten_filter_perm :
    ∀ (ks : List Nat) (tokens : List TokenDefinition), ks.Nodup →
    (∀ t ∈ tokens, t.chainId ∈ ks) →
    List.Perm ((ks.map (fun k => tokens.filter (fun t => t.chainId == k))).flatten)
      tokens := by
  intro ks
  induction ks with
  | nil =>
    intro tokens _ hcov
    have : tokens = [] := by
      cases tokens with
      | nil => rfl
      | cons t ts => exact absurd (hcov t (by simp)) (by simp)
    subst this
    exact List.Perm.refl _
  | cons k ks ih =>
    intro tokens hnd hcov
    rw [List.map_cons, List.flatten_cons]
    rw [List.nodup_cons] at hnd
    have hstep : ∀ k' ∈ ks,
        tokens.filter (fun t => t.chainId == k') =
        (tokens.filter (fun t => !(t.chainId == k))).filter
          (fun t => t.chainId == k') := by
      intro k' hk'
      rw [List.filter_filter]
      apply List.filter_congr
      intro t _
      by_cases ht : t.chainId = k'
      · have hkk : k' ≠ k := fun hh => hnd.1 (hh ▸ hk')
        simp [ht, hkk]
      · simp [ht]
    rw [List.map_congr_left hstep]
    have hcov' : ∀ t ∈ tokens.filter (fun t => !(t.chainId == k)), t.chainId ∈ ks := by
      intro t ht
      rcases List.mem_filter.mp ht with ⟨ht1, ht2⟩
      rcases List.mem_cons.mp (hcov t ht1) with h | h
      · simp [h] at ht2
      · exact h
    have ihp := ih (tokens.filter (fun t => !(t.chainId == k))) hnd.2 hcov'
    exact ((List.Perm.refl (tokens.filter (fun t => t.chainId == k))).append ihp).trans
      (List.filter_append_perm (fun t => t.chainId == k) tokens)

/-! ### Lemmas about the fee estimator -/

/-- The executable comparator used in the eligibility filter agrees with
the order on `ℚ`: `!(r < q)` is `q ≤ r`. -/
theorem blt_le_iff (q r : ℚ) : (!(Rat.blt r q)) = true ↔ q ≤ r := by
  rw [Bool.not_eq_true']
  exact Iff.rfl

theorem chainsOf_nodup (tokens : List TokenDefinition) :
    (chainsOf tokens).Nodup := by
  rw [chainsOf]
  exact ((objectEntries_perm (tokensByChain tokens)).map Prod.fst).nodup_iff.mpr
    (tokensByChain_keys_nodup tokens)

theorem getFeePerGasTry_eq_ok (r : FeeHistoryResponse) (lb : HistBlock) (n : Nat)
    (hlast : (shapeFeeHistory r).getLast? = some lb) (hbf : lb.baseFee = some n) :
    getFeePerGasTry (.ok r) =
      .ok { maxBaseFeePerGas := intToHex (calculatedFeeOf n)
            maxPriorityFeePerGas :=
              intToHex (medianRewardOf (eligibleRewardsBlocks (shapeFeeHistory r)))
            maxFeePerGas :=
              intToHex (calculatedFeeOf n +
                medianRewardOf (eligibleRewardsBlocks (shapeFeeHistory r))) } := by
  rw [getFeePerGasTry]
  simp only [hlast, hbf]

theorem getFeePerGasTry_ok_shape (resp : Except JsError FeeHistoryResponse)
    (fees : Eip1559GasFees) (h : getFeePerGasTry resp = .ok fees) :
    ∃ c m, fees = { maxBaseFeePerGas := intToHex c
                    maxPriorityFeePerGas := intToHex m
                    maxFeePerGas := intToHex (c + m) } := by
  cases resp with
  | error e => simp [getFeePerGasTry] at h
  | ok r =>
    rw [getFeePerGasTry] at h
    cases hlast : (shapeFeeHistory r).getLast? with
    | none => rw [hlast] at h; simp at h
    | some lb =>
      simp only [hlast] at h
      cases hbf : lb.baseFee with
      | none => simp only [hbf] at h; exact Except.noConfusion h
      | some n =>
        simp only [hbf, Except.ok.injEq] at h
        exact ⟨calculatedFeeOf n, medianRewardOf (eligibleRewardsBlocks (shapeFeeHistory r)),
          h.symm⟩

/-- The natural-division implementation of
`Math.ceil(nextBlockFee * 1.125 * 1.125)` is the exact ceiling
(`1.125 = 9/8` exactly in binary, and both double products are exact for
every fee below `2^45` wei). -/
theorem calculatedFeeOf_eq_ceil (n : Nat) :
    (calculatedFeeOf n : ℤ) = ⌈((n : ℚ) * (9/8) * (9/8))⌉ := by
  have h1 : ((n : ℚ) * (9/8) * (9/8)) = ((81 * n : ℕ) : ℚ) / ((64 : ℕ) : ℚ) := by
    push_cast
    ring
  rw [h1, eq_comm, Int.ceil_eq_iff, calculatedFeeOf]
  have h64 : (0 : ℚ) < ((64 : ℕ) : ℚ) := by norm_num
  have hc1 : ((64 * ((81 * n + 63) / 64) : ℕ) : ℚ) < ((81 * n + 64 : ℕ) : ℚ) := by
    exact_mod_cast (by omega : 64 * ((81 * n + 63) / 64) < 81 * n + 64)
  have hc2 : ((81 * n : ℕ) : ℚ) ≤ ((64 * ((81 * n + 63) / 64) : ℕ) : ℚ) := by
    exact_mod_cast (by omega : 81 * n ≤ 64 * ((81 * n + 63) / 64))
  constructor
  · rw [lt_div_iff₀ h64, Int.cast_natCast]
    push_cast at hc1 ⊢
    linarith
  · rw [div_le_iff₀ h64, Int.cast_natCast]
    push_cast at hc2 ⊢
    linarith
/-! ### Claim theorems -/

/-- **C1** (corrected).  For every token list, `getTokenBalances` returns a
concatenation with the same length and the same `(chainId, address)`
identity multiset as the input, and tokens within each chain keep their
original input order (each chain's segment is the input filtered to that
chain).  However, the chains are concatenated in **ascending numeric
chain-id order** — the enumeration order of integer object keys — not in
the order each chain first appeared in the input; `c1_counterexample`
refutes the claimed first-appearance order.  The hypothesis records the
embedding's envelope: chain ids are JS array indices (below `2^32 - 1`),
which holds for every real chain. -/
theorem c1_chains_ascending (env : Env) (tokens : List TokenDefinition)
    (_hidx : ∀ t ∈ tokens, t.chainId < 2 ^ 32 - 1) :
    ∃ out, getTokenBalances env tokens = Except.ok out ∧
      List.Sorted (· < ·) (chainsOf tokens) ∧
      (∀ k, k ∈ chainsOf tokens ↔ k ∈ tokens.map TokenDefinition.chainId) ∧
      out.map TokenBalance.token =
        ((chainsOf tokens).map (fun k => tokens.filter (fun t => t.chainId == k))).flatten ∧
      out.length = tokens.length ∧
      List.Perm (out.map (fun tb => (tb.token.chainId, tb.token.address)))
        (tokens.map (fun t => (t.chainId, t.address))) := by
  obtain ⟨out, hout, hmap⟩ := getTokenBalances_tokens env tokens
  have hperm : List.Perm
      (((chainsOf tokens).map (fun k => tokens.filter (fun t => t.chainId == k))).flatten)
      tokens :=
    flatten_filter_perm (chainsOf tokens) tokens (chainsOf_nodup tokens)
      (fun t ht => (chainsOf_mem tokens t.chainId).mpr
        (List.mem_map.mpr ⟨t, ht, rfl⟩))
  refine ⟨out, hout, chainsOf_sorted tokens, chainsOf_mem tokens, hmap, ?_, ?_⟩
  · calc out.length = (out.map TokenBalance.token).length := (List.length_map _ _).symm
      _ = _ := by rw [hmap]
      _ = tokens.length := hperm.length_eq
  · have h2 : List.Perm (out.map TokenBalance.token) tokens := hmap ▸ hperm
    have h3 := h2.map (fun t : TokenDefinition => (t.chainId, t.address))
    rw [List.map_map] at h3
    exact h3

/-- **C1** witness: the amended statement at the concrete counterexample
input. -/
theorem c1_chains_ascending_witness :
    ∃ out, getTokenBalances envAllFail [tokA2, tokB1] = Except.ok out ∧
      List.Sorted (· < ·) (chainsOf [tokA2, tokB1]) ∧
      (∀ k, k ∈ chainsOf [tokA2, tokB1] ↔
        k ∈ [tokA2, tokB1].map TokenDefinition.chainId) ∧
      out.map TokenBalance.token =
        ((chainsOf [tokA2, tokB1]).map
          (fun k => [tokA2, tokB1].filter (fun t => t.chainId == k))).flatten ∧
      out.length = [tokA2, tokB1].length ∧
      List.Perm (out.map (fun tb => (tb.token.chainId, tb.token.address)))
        ([tokA2, tokB1].map (fun t => (t.chainId, t.address))) :=
  c1_chains_ascending envAllFail [tokA2, tokB1] (by decide)

/-- **C1** counterexample.  Input lists a chain-2 token first and a chain-1
token second; the claim says the output's chain order follows first
appearance (`[2, 1]`), but the code returns chains in ascending id order
(`[1, 2]`). -/
theorem c1_counterexample :
    (getTokenBalances envAllFail [tokA2, tokB1]).map
        (List.map fun tb => tb.token.chainId) = Except.ok [1, 2] ∧
      ([1, 2] : List Nat) ≠ [2, 1] :=
  ⟨rfl, by decide⟩

/-- **C2** (code bug).  The spec says the priority fee is the lower median
of the eligible rewards sorted **ascending** (numerically).  The code
sorts with JavaScript's default comparator, which compares the numbers as
strings.  At eligible rewards 2, 10, 9 the numeric lower median is 9
(`"0x9"`), but `["10" < "2" < "9"]` makes the code pick 2 (`"0x2"`). -/
theorem c2_string_sort_eval :
    getFeePerGas (.ok respStringSort) "0x1" =
      Except.ok { maxBaseFeePerGas := "0x7f", maxPriorityFeePerGas := "0x2",
                  maxFeePerGas := "0x81" } ∧
    intToHex 9 = "0x9" ∧ ("0x2" : String) ≠ "0x9" :=
  ⟨rfl, rfl, by decide⟩

/-- **C3** (confirmed).  `getTokenBalances` resolves — never rejects — for
every outcome environment (`Env` ranges over all combinations of per-token
and per-chain transport/decode failures, and `batchResult` over all
per-call batch outcomes; the CallBatcher itself is spec-modelled as
reporting failures in-band, per §6), and the result is complete: one entry
per input token. -/
theorem c3_never_rejects (env : Env) (tokens : List TokenDefinition) :
    ∃ out, getTokenBalances env tokens = Except.ok out ∧
      out.length = tokens.length := by
  obtain ⟨out, hout, hmap⟩ := getTokenBalances_tokens env tokens
  have hperm : List.Perm
      (((chainsOf tokens).map (fun k => tokens.filter (fun t => t.chainId == k))).flatten)
      tokens :=
    flatten_filter_perm (chainsOf tokens) tokens (chainsOf_nodup tokens)
      (fun t ht => (chainsOf_mem tokens t.chainId).mpr
        (List.mem_map.mpr ⟨t, ht, rfl⟩))
  refine ⟨out, hout, ?_⟩
  calc out.length = (out.map TokenBalance.token).length := (List.length_map _ _).symm
    _ = _ := by rw [hmap]
    _ = tokens.length := hperm.length_eq

/-- **C4** (code bug).  For a failing chain the entry is produced (the
batch is never shortened and the chain id is preserved), but the failure
path of `getNativeCurrencyBalance` writes the key `displayValue` (value
`'0.0'`) instead of the `displayBalance` field required by
`CurrencyBalance` — the entry has no derived decimal display string at
all, contradicting both the claim and the code's own declared interface. -/
theorem c4_failure_entry_shape :
    getCurrencyBalances envAllFail [5] =
      [{ balance := "0x0", displayBalance := none,
         displayValue := some "0.0", chainId := 5 }] :=
  rfl

/-- **C5** (confirmed).  Whenever the default gas level parses,
`getFeePerGas` resolves for every transport outcome, and on any failure of
the fetch-and-process path (`getFeePerGasTry`) it resolves with exactly
the fallback `{maxBaseFeePerGas: defaultGasLevel, maxPriorityFeePerGas:
1 gwei, maxFeePerGas: defaultGasLevel + 1 gwei}`. -/
theorem c5_fallback_on_failure (resp : Except JsError FeeHistoryResponse)
    (d : String) (dn : Nat) (hd : jsParseIntAuto d = some dn) :
    (∃ fees, getFeePerGas resp d = Except.ok fees) ∧
    (∀ err, getFeePerGasTry resp = Except.error err →
      getFeePerGas resp d =
        Except.ok { maxBaseFeePerGas := d
                    maxPriorityFeePerGas := intToHex oneGwei
                    maxFeePerGas := intToHex (dn + oneGwei) }) := by
  cases h : getFeePerGasTry resp with
  | ok fees =>
    refine ⟨⟨fees, by rw [getFeePerGas, h]⟩, fun err herr => ?_⟩
    exact Except.noConfusion herr
  | error e =>
    constructor
    · exact ⟨_, by rw [getFeePerGas, h, hd]⟩
    · intro err _
      rw [getFeePerGas, h, hd]

/-- **C5** witness: a failing transport with default gas level `"0x64"`
(100 wei). -/
theorem c5_fallback_on_failure_witness :
    getFeePerGas (Except.error JsError.transport) "0x64" =
      Except.ok { maxBaseFeePerGas := "0x64"
                  maxPriorityFeePerGas := intToHex oneGwei
                  maxFeePerGas := intToHex (100 + oneGwei) } :=
  (c5_fallback_on_failure (Except.error JsError.transport) "0x64" 100 rfl).2
    JsError.transport rfl

/-- **C6** (confirmed).  The base-fee component is
`⌈nextBlockFee · 1.125 · 1.125⌉` of the last returned history block's base
fee (`calculatedFeeOf`, shown equal to the exact real ceiling; the double
computation is exact for fees below `2^45` wei), and the spec's concrete
example evaluates to `{maxBaseFeePerGas: 0x8c (140), maxPriorityFeePerGas:
0x3, maxFeePerGas: 0x8f (143)}`. -/
theorem c6_base_fee_formula :
    (∀ n : Nat, (calculatedFeeOf n : ℤ) = ⌈((n : ℚ) * (9/8) * (9/8))⌉) ∧
    (∀ (resp : FeeHistoryResponse) (d : String) (lb : HistBlock) (n : Nat),
      (shapeFeeHistory resp).getLast? = some lb → lb.baseFee = some n →
      ∃ fees, getFeePerGas (.ok resp) d = Except.ok fees ∧
        fees.maxBaseFeePerGas = intToHex (calculatedFeeOf n)) ∧
    getFeePerGas (.ok respSpecExample) "0x1" =
      Except.ok { maxBaseFeePerGas := "0x8c", maxPriorityFeePerGas := "0x3",
                  maxFeePerGas := "0x8f" } := by
  refine ⟨calculatedFeeOf_eq_ceil, ?_, rfl⟩
  intro resp d lb n hlast hbf
  exact ⟨_, by rw [getFeePerGas, getFeePerGasTry_eq_ok resp lb n hlast hbf], rfl⟩

/-- **C6** witness: the general formula applied to the spec's example
history, whose last block has base fee `0x6e` (110). -/
theorem c6_base_fee_formula_witness :
    ∃ fees, getFeePerGas (.ok respSpecExample) "0x1" = Except.ok fees ∧
      fees.maxBaseFeePerGas = intToHex (calculatedFeeOf 110) :=
  c6_base_fee_formula.2.1 respSpecExample "0x1"
    { baseFee := some 110, gasUsedRatio := some (mkRat 5 100), rewards := [some 1] }
    110 rfl rfl

/-- **C7** (confirmed).  For every transport outcome and every hex-encoded
default gas level, `getFeePerGas` produces a record whose three fields are
all present as hex-encoded integers with
`maxFeePerGas = maxBaseFeePerGas + maxPriorityFeePerGas`. -/
theorem c7_fields_hex_and_sum (resp : Except JsError FeeHistoryResponse)
    (dn : Nat) :
    ∃ fees a p, getFeePerGas resp (intToHex dn) = Except.ok fees ∧
      fees.maxBaseFeePerGas = intToHex a ∧
      fees.maxPriorityFeePerGas = intToHex p ∧
      fees.maxFeePerGas = intToHex (a + p) := by
  cases h : getFeePerGasTry resp with
  | ok fees =>
    obtain ⟨c, m, rfl⟩ := getFeePerGasTry_ok_shape resp fees h
    exact ⟨{ maxBaseFeePerGas := intToHex c, maxPriorityFeePerGas := intToHex m,
             maxFeePerGas := intToHex (c + m) }, c, m,
           by rw [getFeePerGas, h], rfl, rfl, rfl⟩
  | error e =>
    refine ⟨{ maxBaseFeePerGas := intToHex dn, maxPriorityFeePerGas := intToHex oneGwei,
              maxFeePerGas := intToHex (dn + oneGwei) }, dn, oneGwei, ?_, rfl, rfl, rfl⟩
    rw [getFeePerGas, h, jsParseIntAuto_intToHex]

/-- **C8** (confirmed).  On the batched path the result is zipped back to
the tokens by positional index: entry `i` is token `i` merged with the
decoded balance when call `i` succeeded, and with a zero balance
(`"0x0"`) at token `i`'s own decimal precision when call `i` failed —
other entries are unaffected. -/
theorem c8_positional_merge (env : Env) (tokens : List TokenDefinition)
    (chainId : Nat) (i : Nat) (hi : i < tokens.length) :
    (getTokenBalancesFromMulticall env tokens chainId).length = tokens.length ∧
    (getTokenBalancesFromMulticall env tokens chainId)[i]? =
      some (match env.batchResult chainId i with
        | some v =>
          { token := tokens[i], balance := intToHex v
            displayBalance := env.display (intToHex v) tokens[i].decimals }
        | none =>
          { token := tokens[i], balance := "0x0"
            displayBalance := env.display "0x0" tokens[i].decimals }) := by
  constructor
  · rw [getTokenBalancesFromMulticall, List.length_map, List.enum_length]
  · rw [getTokenBalancesFromMulticall, List.getElem?_map, List.getElem?_enum,
      List.getElem?_eq_getElem hi]
    simp only [Option.map_some']
    cases h : env.batchResult chainId i <;> simp only [h] <;> rfl

/-- **C8** witness: two tokens on chain 2 where call 0 succeeds (decoding
to 7) and call 1 fails. -/
theorem c8_positional_merge_witness :
    ((getTokenBalancesFromMulticall envBatchMixed [tokA2, tokB1] 2).length =
      [tokA2, tokB1].length ∧
    (getTokenBalancesFromMulticall envBatchMixed [tokA2, tokB1] 2)[1]? =
      some (match envBatchMixed.batchResult 2 1 with
        | some v =>
          { token := [tokA2, tokB1][1], balance := intToHex v
            displayBalance := envBatchMixed.display (intToHex v) [tokA2, tokB1][1].decimals }
        | none =>
          { token := [tokA2, tokB1][1], balance := "0x0"
            displayBalance := envBatchMixed.display "0x0" [tokA2, tokB1][1].decimals })) :=
  c8_positional_merge envBatchMixed [tokA2, tokB1] 2 1 (by decide)

/-- **C9** (confirmed).  `getGasEstimate` settles from the transport's
response alone: a reported (truthy) error rejects with that error payload
unchanged, and an absent error resolves with the reported result — no
substitute value is ever produced. -/
theorem c9_estimate_propagates (send : RawTransaction → GasEstimateResponse)
    (tx : RawTransaction) :
    (∀ e, (send tx).error = some e → e ≠ "" →
      getGasEstimate send tx = Except.error e) ∧
    ((send tx).error = none →
      getGasEstimate send tx = Except.ok (send tx).result) := by
  constructor
  · intro e he hne
    rw [getGasEstimate, handleGasEstimateResponse, he]
    simp [hne]
  · intro he
    rw [getGasEstimate, handleGasEstimateResponse, he]

/-- **C9** witness: a reverting simulation rejects with the payload; a
successful one resolves with the reported gas. -/
theorem c9_estimate_propagates_witness :
    getGasEstimate sendEstimateError { chainId := "0x1" } =
      Except.error "execution reverted" ∧
    getGasEstimate sendEstimateOk { chainId := "0x1" } = Except.ok "0x5208" :=
  ⟨(c9_estimate_propagates sendEstimateError { chainId := "0x1" }).1
      "execution reverted" rfl (by decide),
   (c9_estimate_propagates sendEstimateOk { chainId := "0x1" }).2 rfl⟩

/-- **C10** (confirmed).  When fee history processes normally but the
element the code selects at the lower-median index of its sorted eligible
rewards is `0` — a falsy value — the `|| oneGwei` default applies and
`maxPriorityFeePerGas` is 1 gwei (`10^9` wei), not 0. -/
theorem c10_zero_median_defaults (resp : FeeHistoryResponse) (d : String)
    (lb : HistBlock) (n : Nat)
    (hlast : (shapeFeeHistory resp).getLast? = some lb)
    (hbf : lb.baseFee = some n)
    (hzero : (isort sampleLe (eligibleRewardsBlocks (shapeFeeHistory resp))).get?
        ((eligibleRewardsBlocks (shapeFeeHistory resp)).length / 2) =
      some (RewardSample.val 0)) :
    ∃ fees, getFeePerGas (.ok resp) d = Except.ok fees ∧
      fees.maxPriorityFeePerGas = intToHex oneGwei := by
  refine ⟨_, by rw [getFeePerGas, getFeePerGasTry_eq_ok resp lb n hlast hbf], ?_⟩
  show intToHex (medianRewardOf (eligibleRewardsBlocks (shapeFeeHistory resp))) = _
  rw [medianRewardOf, hzero]
  simp

/-- **C10** witness: eligible rewards 0, 0, 5; the sorted samples have 0
at index 1. -/
theorem c10_zero_median_defaults_witness :
    ∃ fees, getFeePerGas (.ok respZeroMedian) "0x1" = Except.ok fees ∧
      fees.maxPriorityFeePerGas = intToHex oneGwei :=
  c10_zero_median_defaults respZeroMedian "0x1"
    { baseFee := some 100, gasUsedRatio := some (mkRat 1 2), rewards := [some 5] }
    100 rfl rfl rfl

end Frame

